import Mathlib

/-!
Verification of the review-record extraction engine of
`src/scrapers/steam_curator_dump.py` (Steam_KRLocInfo).

The Python functions are shallowly embedded as executable Lean functions
over `List Char` / `String`.  Regular-expression passes are embedded as
the equivalent deterministic scanners (each regex used by the source is
simple enough that greedy matching with the local backtracking rules is
equivalent to a direct scan; this is argued case by case in comments).
Python's `\d` and `\s` are modelled as ASCII digits and ASCII whitespace:
no input considered here contains non-ASCII digits or exotic whitespace.
-/

/-- ASCII model of Python's `\s` / `str.strip` whitespace class. -/
def pyWhite (c : Char) : Bool :=
  c == ' ' || c == '\t' || c == '\n' || c == '\r' || c == '\x0b' || c == '\x0c'

/-- Substring containment on char lists: Python's `pat in s` / `re.search` of a
literal pattern. -/
def listContains (pat : List Char) : List Char → Bool
  | [] => pat.isPrefixOf []
  | c :: rest => pat.isPrefixOf (c :: rest) || listContains pat rest

/-- Python `pat in s` for strings: `containsStr s pat` is true when `pat`
occurs in `s`. -/
def containsStr (s pat : String) : Bool :=
  listContains pat.toList s.toList

/-- Python `str.strip()` on a char list: drop leading and trailing whitespace. -/
def pyStripList (l : List Char) : List Char :=
  ((l.dropWhile pyWhite).reverse.dropWhile pyWhite).reverse

/-- Python `str.strip()`. -/
def pyStripStr (s : String) : String :=
  String.mk (pyStripList s.toList)

/-! ## sanitize_review_text (source lines 35-44) -/

/-- Terminator class of the URL regex `https?://[^\s"'<>]+`. -/
def urlStop (c : Char) : Bool :=
  pyWhite c || c == '"' || c == '\'' || c == '<' || c == '>'

/-- Length of the match of `https?://[^\s"'<>]+` anchored at the head of `l`,
if any.  The regex backtracking on `s?` cannot rescue a failed match here
(after `http` the scheme needs `://`, which an input starting `https://`
cannot provide to the no-`s` branch), so prefix tests suffice. -/
def matchUrlAt (l : List Char) : Option Nat :=
  if "https://".toList.isPrefixOf l then
    let body := (l.drop 8).takeWhile (fun c => !urlStop c)
    if body.isEmpty then none else some (8 + body.length)
  else if "http://".toList.isPrefixOf l then
    let body := (l.drop 7).takeWhile (fun c => !urlStop c)
    if body.isEmpty then none else some (7 + body.length)
  else none

/-- Embeds `len(urls), url_pattern.sub("", text)`: count and delete the non-overlapping
leftmost URL matches.  Fuel-driven so that the definition is structural; every
step consumes at least one character, so fuel `l.length` is exact. -/
def stripUrlsAux : Nat → List Char → Nat × List Char
  | 0, l => (0, l)
  | _ + 1, [] => (0, [])
  | n + 1, c :: rest =>
    match matchUrlAt (c :: rest) with
    | some k =>
      let r := stripUrlsAux n (List.drop k (c :: rest))
      (r.1 + 1, r.2)
    | none =>
      let r := stripUrlsAux n rest
      (r.1, c :: r.2)

/-- Length of the match of `링크\s*:` anchored at the head of `l`, if any.
Greedy `\s*` takes the maximal whitespace run; backtracking to a shorter run
would put a whitespace character where `:` is required, so it never helps. -/
def matchLinkAt (l : List Char) : Option Nat :=
  if "링크".toList.isPrefixOf l then
    let w := (l.drop 2).takeWhile pyWhite
    match (l.drop (2 + w.length)).head? with
    | some ':' => some (2 + w.length + 1)
    | _ => none
  else none

/-- Embeds `re.sub(r"링크\s*:", "", s)`: delete the non-overlapping leftmost matches. -/
def removeLinkAux : Nat → List Char → List Char
  | 0, l => l
  | _ + 1, [] => []
  | n + 1, c :: rest =>
    match matchLinkAt (c :: rest) with
    | some k => removeLinkAux n (List.drop k (c :: rest))
    | none => c :: removeLinkAux n rest

/-- Embeds `re.sub(r"\n+", "\n", s)`: collapse every newline run to one newline. -/
def collapseNl : List Char → List Char
  | [] => []
  | [c] => [c]
  | c1 :: c2 :: rest =>
    if c1 == '\n' && c2 == '\n' then collapseNl (c2 :: rest)
    else c1 :: collapseNl (c2 :: rest)

/-- The character class of the final pass `re.sub(r"[,\\s]+$", "", s)`.  The
raw string `r"[,\\s]+$"` escapes the backslash, so the class is comma,
backslash and the literal letter `s` (not whitespace). -/
def trailJunk (c : Char) : Bool :=
  c == ',' || c == '\\' || c == 's'

/-- Embeds `re.sub(r"[,\\s]+$", "", s)`: remove the maximal trailing run of characters
of the class.  (`$` can also match before a final newline, but this pass always
runs on stripped text, which never ends in a newline.) -/
def stripTrailingJunk (l : List Char) : List Char :=
  (l.reverse.dropWhile trailJunk).reverse

/-- Embeds `sanitize_review_text` (source lines 35-44): returns
`(cleaned, len(urls) > 0, len(urls))`. -/
def sanitize_review_text (text : String) : String × Bool × Nat :=
  if text = "" then ("", false, 0)
  else
    let cs := text.toList
    let r := stripUrlsAux cs.length cs
    let c2 := removeLinkAux r.2.length r.2
    let c3 := pyStripList (collapseNl c2)
    let c4 := stripTrailingJunk c3
    (String.mk c4, decide (0 < r.1), r.1)

/-! ## normalize_base_url (source lines 23-33) -/

/-- One pass of `s.replace("\\/", "/")`: non-overlapping left-to-right. -/
def replEsc : List Char → List Char
  | '\\' :: '/' :: rest => '/' :: replEsc rest
  | c :: rest => c :: replEsc rest
  | [] => []

/-- The bounded loop `for _ in range(10): if "\\/" not in s: break; s = ...`. -/
def escLoop : Nat → List Char → List Char
  | 0, l => l
  | n + 1, l => if listContains ['\\', '/'] l then escLoop n (replEsc l) else l

/-- Embeds `re.sub(r"^(https?:)/*", r"\1//", s)`: anchored, so at most one
replacement; the group is `https:` or `http:` (never both match a prefix). -/
def schemeFix (l : List Char) : List Char :=
  if "https:".toList.isPrefixOf l then
    "https://".toList ++ ((l.drop 6).dropWhile (fun c => c == '/'))
  else if "http:".toList.isPrefixOf l then
    "http://".toList ++ ((l.drop 5).dropWhile (fun c => c == '/'))
  else l

/-- Embeds `if not s.endswith("/"): s += "/"`. -/
def ensureTrailingSlash (l : List Char) : List Char :=
  if l.getLast? == some '/' then l else l ++ ['/']

/-- Embeds `normalize_base_url` (source lines 23-33). -/
def normalize_base_url (raw : String) : String :=
  let s1 := pyStripList raw.toList
  let s2 := escLoop 10 s1
  let s3 := s2.filter (fun c => !(c == '\\'))
  let s4 := pyStripList (schemeFix s3)
  String.mk (ensureTrailingSlash s4)

/-! ## is_date_like (source lines 56-71) -/

/-- The twelve English month names of the source's alternation. -/
def monthNames : List String :=
  ["January", "February", "March", "April", "May", "June", "July",
   "August", "September", "October", "November", "December"]

/-- Consume one month name at the head of `l`; no month name is a prefix of
another, so at most one alternative matches. -/
def monthRest (l : List Char) : Option (List Char) :=
  (monthNames.find? (fun m => m.toList.isPrefixOf l)).map (fun m => l.drop m.length)

/-- Embeds `^\d{1,2}\s+<Month>(,\s*\d{4})?$`.  A digit run of length three or more
fails under every backtracking choice (a digit would sit where `\s` is
required), so the maximal-run reading is equivalent. -/
def shape1 (l : List Char) : Bool :=
  let d := l.takeWhile Char.isDigit
  let r1 := l.dropWhile Char.isDigit
  let w := r1.takeWhile pyWhite
  let r2 := r1.dropWhile pyWhite
  ((d.length == 1 || d.length == 2) && !w.isEmpty) &&
    match monthRest r2 with
    | none => false
    | some rest =>
      rest.isEmpty ||
        (match rest with
         | ',' :: r3 =>
           let r4 := r3.dropWhile pyWhite
           (r4.length == 4) && r4.all Char.isDigit
         | _ => false)

/-- Embeds `^\d{4}-\d{2}-\d{2}$`. -/
def shape2 : List Char → Bool
  | [a, b, c, d, '-', e, f, '-', g, h] =>
    [a, b, c, d, e, f, g, h].all Char.isDigit
  | _ => false

/-- Embeds `^\d{4}\.\d{1,2}\.\d{1,2}\.?$`. -/
def shape3 (l : List Char) : Bool :=
  let y := l.takeWhile Char.isDigit
  let r1 := l.dropWhile Char.isDigit
  (y.length == 4) &&
    match r1 with
    | '.' :: r2 =>
      let m := r2.takeWhile Char.isDigit
      let r3 := r2.dropWhile Char.isDigit
      (m.length == 1 || m.length == 2) &&
        match r3 with
        | '.' :: r4 =>
          let d := r4.takeWhile Char.isDigit
          let r5 := r4.dropWhile Char.isDigit
          (d.length == 1 || d.length == 2) && (r5.isEmpty || r5 == ['.'])
        | _ => false
    | _ => false

/-- Embeds `^\d{4}년\s*\d{1,2}월\s*\d{1,2}일$`. -/
def shape4 (l : List Char) : Bool :=
  let y := l.takeWhile Char.isDigit
  let r1 := l.dropWhile Char.isDigit
  (y.length == 4) &&
    match r1 with
    | '년' :: r2 =>
      let r3 := r2.dropWhile pyWhite
      let m := r3.takeWhile Char.isDigit
      let r4 := r3.dropWhile Char.isDigit
      (m.length == 1 || m.length == 2) &&
        match r4 with
        | '월' :: r5 =>
          let r6 := r5.dropWhile pyWhite
          let d := r6.takeWhile Char.isDigit
          let r7 := r6.dropWhile Char.isDigit
          (d.length == 1 || d.length == 2) && (r7 == ['일'])
        | _ => false
    | _ => false

/-- Embeds `is_date_like` (source lines 56-71). -/
def is_date_like (text : String) : Bool :=
  let t := pyStripList text.toList
  if t.isEmpty then false
  else if 32 < t.length then false
  else shape1 t || shape2 t || shape3 t || shape4 t

/-- Date-likeness as the spec words it: the trimmed text has length at most 32
and matches one of the four date shapes. -/
def specIsDateLike (text : String) : Bool :=
  let t := pyStripList text.toList
  decide (t.length ≤ 32) && (shape1 t || shape2 t || shape3 t || shape4 t)

/-! ## The markup tree model

A minimal model of the parsed BeautifulSoup tree: a node is a text node or
an element with a tag name, its `class` tokens, an optional `href` attribute
and its children.  The soup's `[document]` root is itself an element.  Only
traversal is needed; parents are recovered by carrying ancestor lists. -/

inductive MarkupNode where
  | text (s : String)
  | elem (tag : String) (classes : List String) (href : Option String)
      (children : List MarkupNode)

def childrenOf : MarkupNode → List MarkupNode
  | .text _ => []
  | .elem _ _ _ cs => cs

def classesOf : MarkupNode → List String
  | .text _ => []
  | .elem _ cls _ _ => cls

/-- Embeds `link.get("href", "")`. -/
def hrefOf : MarkupNode → String
  | .elem _ _ (some h) _ => h
  | _ => ""

def textOf : MarkupNode → Option String
  | .text s => some s
  | _ => none

mutual
/-- Pre-order list of the nodes of the subtree rooted at `n` (including `n`),
each paired with its ancestor chain, nearest ancestor first; `anc` is the
chain above `n`. -/
def entriesWA (n : MarkupNode) (anc : List MarkupNode) :
    List (MarkupNode × List MarkupNode) :=
  match n with
  | .text s => [(.text s, anc)]
  | .elem t c h cs => (.elem t c h cs, anc) :: entriesList cs (.elem t c h cs :: anc)
def entriesList (ns : List MarkupNode) (anc : List MarkupNode) :
    List (MarkupNode × List MarkupNode) :=
  match ns with
  | [] => []
  | n :: rest => entriesWA n anc ++ entriesList rest anc
end

/-- The proper descendants of `n` in document (pre-)order, text nodes
included: what BeautifulSoup's `find` / `find_all` / `descendants` walk. -/
def descendants (n : MarkupNode) : List MarkupNode :=
  (entriesList (childrenOf n) [n]).map Prod.fst

/-- Embeds `elem.get_text("\n", strip=True)`: every descendant string, stripped,
empties dropped, joined by newlines. -/
def getTextN (n : MarkupNode) : String :=
  String.intercalate "\n"
    ((((descendants n).filterMap textOf).map pyStripStr).filter (fun s => s != ""))

/-! ## _pick_best_review_text (source lines 216-247) -/

/-- The ordered class-name patterns of Phase A. -/
def selectors : List String :=
  ["recommendation_desc", "recommendation_desc_text", "curator_review",
   "curator_review_desc", "blurb", "desc"]

/-- Embeds `find(class_=re.compile(pat))` match test: some class token contains the
pattern (the patterns are plain literals, so regex search is substring
containment; a match of the joined class string cannot span tokens because no
pattern contains a space). -/
def classMatch (pat : String) (n : MarkupNode) : Bool :=
  (classesOf n).any (fun tok => containsStr tok pat)

/-- Phase A (source lines 218-231): for each pattern in order,
`container.find(class_=re.compile(pat))` — the FIRST matching descendant
only — contributes its text if nonempty. -/
def phaseA (container : MarkupNode) : List String :=
  selectors.filterMap (fun pat =>
    match (descendants container).find? (classMatch pat) with
    | none => none
    | some e =>
      let t := getTextN e
      if t == "" then none else some t)

/-- The date-keyword class screen of Phase B. -/
def dateClassy (n : MarkupNode) : Bool :=
  let cs := String.intercalate " " (classesOf n)
  containsStr cs "date" || containsStr cs "posted" || containsStr cs "time" ||
    containsStr cs "timestamp"

def blockTag (n : MarkupNode) : Bool :=
  match n with
  | .elem t _ _ _ => t == "div" || t == "span" || t == "p"
  | _ => false

/-- Phase B (source lines 232-240): `find_all(["div","span","p"], limit=60)`,
skip date-classed elements, keep texts of length at least 8. -/
def phaseB (container : MarkupNode) : List String :=
  (((descendants container).filter blockTag).take 60).filterMap (fun e =>
    if dateClassy e then none
    else
      let t := getTextN e
      if t != "" && decide (8 ≤ t.length) then some t else none)

def bestCandidates (container : MarkupNode) : List String :=
  let a := phaseA container
  if a.isEmpty then phaseB container else a

/-- The selection loop of lines 241-247: skip date-like candidates, keep the
strictly longest seen so far (so ties keep the first seen). -/
def pickAux : List String → String → String
  | [], best => best
  | t :: rest, best =>
    if is_date_like t then pickAux rest best
    else if best.length < t.length then pickAux rest t
    else pickAux rest best

def pickLoop (cands : List String) : String := pickAux cands ""

def _pick_best_review_text (container : MarkupNode) : String :=
  pickLoop (bestCandidates container)

/-! ## The container walk, sentiment, URLs (source lines 249-311) -/

/-- The qualifying test of the container walk: a `div` whose joined class
string contains `recommend` or `curator`. -/
def qualifies (n : MarkupNode) : Bool :=
  match n with
  | .elem t cls _ _ =>
    t == "div" && (containsStr (String.intercalate " " cls) "recommend" ||
      containsStr (String.intercalate " " cls) "curator")
  | _ => false

/-- The 14-step upward walk of lines 264-275.  In the extractor every parent
has at least one child, so Python's `if not parent: break` fires exactly at
the end of the ancestor list. -/
def locateAux : Nat → MarkupNode → List MarkupNode → MarkupNode × List MarkupNode
  | 0, cur, anc => (cur, anc)
  | _ + 1, cur, [] => (cur, [])
  | n + 1, _cur, p :: rest => if qualifies p then (p, rest) else locateAux n p rest

def locateContainer (link : MarkupNode) (anc : List MarkupNode) :
    MarkupNode × List MarkupNode :=
  locateAux 14 link anc

/-- The class vocabulary of lines 280-289: the class tokens of the container
and of up to 9 further ancestors (10 nodes), joined by spaces.  The container
found by the walk always has a child, so Python's `if not cur: break`
(falsiness of an empty tag) again fires exactly at the end of the list. -/
def classVocab (container : MarkupNode) (anc : List MarkupNode) : String :=
  String.intercalate " " (((container :: anc).take 10).map classesOf).flatten

/-- The sentiment decision of lines 290-295. -/
def classify (v : String) : String :=
  if containsStr v "not_recommended" || containsStr v "negative" then "not_recommended"
  else if containsStr v "informational" then "informational"
  else "recommended"

/-- Embeds `to_abs_steam_url` (source lines 46-54). -/
def cutQuery (s : String) : String :=
  String.mk (s.toList.takeWhile (fun c => !(c == '?')))

def to_abs_steam_url (href : String) : String :=
  if href == "" then ""
  else
    let h := pyStripStr href
    if "http://".isPrefixOf h || "https://".isPrefixOf h then cutQuery h
    else if "/".isPrefixOf h then cutQuery ("https://store.steampowered.com" ++ h)
    else cutQuery h

/-- Leftmost match of `/app/(\d+)`: the digit run after the first `/app/`
that is followed by at least one digit. -/
def findAppId : List Char → Option (List Char)
  | [] => none
  | c :: rest =>
    if "/app/".toList.isPrefixOf (c :: rest) then
      let ds := ((c :: rest).drop 5).takeWhile Char.isDigit
      if ds.isEmpty then findAppId rest else some ds
    else findAppId rest

/-- Embeds `re.search(r"/app/(\d+)", href)`, group 1. -/
def extract_appid (h : String) : Option String :=
  (findAppId h.toList).map String.mk

/-- Whether `re.compile(r"/app/\d+")` matches the href (the `find_all`
filter). -/
def hrefOk (h : String) : Bool :=
  (findAppId h.toList).isSome

structure ReviewRecord where
  appid : String
  url : String
  curator_url : String
  review : String
  review_has_url : Bool
  review_url_count : Nat
  type : String
deriving DecidableEq, Repr

/-- One loop body of lines 264-308 for an anchor already known to carry
`appid`. -/
def buildRecord (cid : Nat) (link : MarkupNode) (anc : List MarkupNode)
    (appid : String) (href : String) : ReviewRecord :=
  let c := locateContainer link anc
  let raw := _pick_best_review_text c.1
  let s := sanitize_review_text raw
  let url0 := to_abs_steam_url href
  { appid := appid
    url := if url0 == "" then "https://store.steampowered.com/app/" ++ appid else url0
    curator_url := "https://store.steampowered.com/app/" ++ appid ++
      "/?curator_clanid=" ++ toString cid
    review := s.1
    review_has_url := s.2.1
    review_url_count := s.2.2
    type := classify (classVocab c.1 c.2) }

/-- The `find_all("a", href=re.compile(r"/app/\d+"))` node test. -/
def isProductAnchor (n : MarkupNode) : Bool :=
  match n with
  | .elem t _ (some h) _ => t == "a" && hrefOk h
  | _ => false

/-- Any `a`-tagged element (with or without a usable href). -/
def isAnchorTag (n : MarkupNode) : Bool :=
  match n with
  | .elem t _ _ _ => t == "a"
  | _ => false

/-- Embeds `soup.find_all("a", href=re.compile(r"/app/\d+"))`, each with its ancestor
chain. -/
def appLinks (root : MarkupNode) : List (MarkupNode × List MarkupNode) :=
  (entriesList (childrenOf root) [root]).filter (fun e => isProductAnchor e.1)

/-- The anchor loop of `_parse_reviews_html` with its `seen` set. -/
def processLinks (cid : Nat) :
    List (MarkupNode × List MarkupNode) → List String → List ReviewRecord
  | [], _ => []
  | e :: rest, seen =>
    match extract_appid (hrefOf e.1) with
    | none => processLinks cid rest seen
    | some appid =>
      if appid ∈ seen then processLinks cid rest seen
      else buildRecord cid e.1 e.2 appid (hrefOf e.1) ::
        processLinks cid rest (appid :: seen)

/-- Embeds `_parse_reviews_html` (source lines 249-311). -/
def _parse_reviews_html (cid : Nat) (root : MarkupNode) : List ReviewRecord :=
  processLinks cid (appLinks root) []

/-! ## Helper lemmas -/

theorem head_dropWhile_false {p : Char → Bool} :
    ∀ (m : List Char) (c : Char), (m.dropWhile p).head? = some c → p c = false := by
  intro m
  induction m with
  | nil => intro c h; simp at h
  | cons a r ih =>
    intro c h
    by_cases hp : p a
    · rw [List.dropWhile_cons_of_pos hp] at h
      exact ih c h
    · rw [List.dropWhile_cons_of_neg hp] at h
      simp at h
      subst h
      exact Bool.not_eq_true _ ▸ (by simpa using hp)

theorem dropWhile_head_id {p : Char → Bool} (m : List Char)
    (h : ∀ c, m.head? = some c → p c = false) : m.dropWhile p = m := by
  cases m with
  | nil => rfl
  | cons a r => rw [List.dropWhile_cons_of_neg (by simp [h a rfl])]

theorem ensureTrailingSlash_getLast (l : List Char) :
    (ensureTrailingSlash l).getLast? = some '/' := by
  unfold ensureTrailingSlash
  split
  · next h => simpa using h
  · exact List.getLast?_concat _

/-! ## Claim C8: normalize_base_url -/

/-- The claim's words "ends with exactly one trailing slash": last character is
a slash and the one before it (if any) is not. -/
def hasExactlyOneTrailingSlash (s : String) : Bool :=
  match s.toList.reverse with
  | '/' :: rest => !(rest.head? == some '/')
  | _ => false

/-- Claim C8, counterexample: on input `"a//"` the normalizer returns `"a//"`,
which ends in two slashes, so the output does not always end with exactly one
trailing slash. -/
theorem c8_normalize_counterexample :
    normalize_base_url "a//" = "a//" ∧
      hasExactlyOneTrailingSlash (normalize_base_url "a//") = false :=
  ⟨by decide, by decide⟩

/-- Claim C8, amended: for every input string the result ends with a trailing
slash (at least one — a pre-existing run of trailing slashes is kept, not
collapsed), and the claim's concrete example holds:
`normalizeBase("https:\/\/example.com\/curator\/1") =
"https://example.com/curator/1/"`. -/
theorem c8_normalize_amended :
    (∀ raw : String, (normalize_base_url raw).toList.getLast? = some '/')
    ∧ normalize_base_url "https:\\/\\/example.com\\/curator\\/1" =
        "https://example.com/curator/1/" := by
  refine ⟨fun raw => ?_, by decide⟩
  unfold normalize_base_url
  exact ensureTrailingSlash_getLast _

/-! ## Claim C10: the trailing-strip class -/

/-- Whether the string's last character is in the trailing-strip class
`{',', '\', 's'}`. -/
def trailJunkEnd (s : String) : Bool :=
  match s.toList.getLast? with
  | some c => trailJunk c
  | none => false

theorem trailJunkEnd_strip (l : List Char) :
    trailJunkEnd (String.mk (stripTrailingJunk l)) = false := by
  unfold trailJunkEnd stripTrailingJunk
  rw [show (String.mk ((l.reverse.dropWhile trailJunk).reverse)).toList
      = (l.reverse.dropWhile trailJunk).reverse from rfl]
  rw [List.getLast?_reverse]
  cases h : (l.reverse.dropWhile trailJunk).head? with
  | none => rfl
  | some c => exact head_dropWhile_false _ c h

/-- Claim C10: the sanitizer's final pass strips trailing `','`, `'\'` and the
literal letter `'s'` (the raw-string class `[,\\s]`), so
`sanitize("Buggy mess") = ("Buggy me", false, 0)` and no clean text the
sanitizer returns ever ends in one of those three characters. -/
theorem c10_trailing_strip :
    sanitize_review_text "Buggy mess" = ("Buggy me", false, 0)
    ∧ ∀ x : String, trailJunkEnd (sanitize_review_text x).1 = false := by
  refine ⟨by decide, fun x => ?_⟩
  unfold sanitize_review_text
  split
  · rfl
  · exact trailJunkEnd_strip _

/-! ## Claim C7: is_date_like -/

/-- Claim C7: `is_date_like` returns true exactly when the trimmed input has
length at most 32 and matches one of the four date shapes (the spec-side
`specIsDateLike`); in particular `"2024-01-15"` is date-like, a trimmed input
longer than 32 characters never is, and Korean prose is not. -/
theorem c7_date_likeness :
    (∀ text : String, is_date_like text = specIsDateLike text)
    ∧ is_date_like "2024-01-15" = true
    ∧ is_date_like "2024-01-15 extra long trailing content making it too long" = false
    ∧ is_date_like "이것은 리뷰입니다" = false := by
  refine ⟨fun text => ?_, by decide, by decide, by decide⟩
  unfold is_date_like specIsDateLike
  cases h : pyStripList text.toList with
  | nil => simp [h]; exact ⟨⟨⟨rfl, rfl⟩, rfl⟩, rfl⟩
  | cons c rest =>
    by_cases h32 : 32 < (c :: rest).length
    · simp only [h, h32]
      simp only [List.length_cons] at h32
      simp
      intro hle
      omega
    · simp only [h, h32]
      simp only [List.length_cons] at h32
      simp
      intro _
      omega

/-! ## Claim C4: the selection step of the best-text picker -/

/-- The candidates surviving the date-likeness screen, in collection order. -/
def survivors (l : List String) : List String :=
  l.filter (fun t => !is_date_like t)

/-- The maximal candidate length. -/
def maxLenOf (l : List String) : Nat :=
  l.foldr (fun t m => max t.length m) 0

theorem maxLenOf_cons (t : String) (l : List String) :
    maxLenOf (t :: l) = max t.length (maxLenOf l) := rfl

theorem length_le_maxLenOf : ∀ {l : List String} {t : String}, t ∈ l →
    t.length ≤ maxLenOf l := by
  intro l
  induction l with
  | nil => intro t h; simp at h
  | cons a r ih =>
    intro t h
    rw [maxLenOf_cons]
    rcases List.mem_cons.mp h with h | h
    · subst h; exact Nat.le_max_left _ _
    · exact Nat.le_trans (ih h) (Nat.le_max_right _ _)

theorem exists_maxLenOf : ∀ {l : List String}, l ≠ [] →
    ∃ t ∈ l, t.length = maxLenOf l := by
  intro l
  induction l with
  | nil => intro h; exact absurd rfl h
  | cons a r ih =>
    intro _
    cases r with
    | nil => exact ⟨a, by simp, by simp [maxLenOf_cons, maxLenOf]⟩
    | cons b r2 =>
      obtain ⟨u, hu, hlen⟩ := ih (by simp)
      rcases Nat.le_total (maxLenOf (b :: r2)) a.length with hle | hle
      · exact ⟨a, List.mem_cons_self _ _, by rw [maxLenOf_cons, Nat.max_eq_left hle]⟩
      · exact ⟨u, List.mem_cons_of_mem _ hu,
          by rw [maxLenOf_cons, Nat.max_eq_right hle, hlen]⟩

theorem find?_maxLenOf_isSome {l : List String} (h : l ≠ []) :
    (l.find? (fun t => t.length == maxLenOf l)).isSome := by
  obtain ⟨t, ht, hlen⟩ := exists_maxLenOf h
  rw [List.find?_isSome]
  exact ⟨t, ht, by simpa using hlen⟩

theorem pickAux_eq (l : List String) : ∀ b : String,
    pickAux l b =
      if maxLenOf (survivors l) ≤ b.length then b
      else ((survivors l).find?
        (fun t => t.length == maxLenOf (survivors l))).getD b := by
  induction l with
  | nil => intro b; simp [pickAux, survivors, maxLenOf]
  | cons t r ih =>
    intro b
    by_cases hd : is_date_like t
    · rw [show pickAux (t :: r) b = pickAux r b by simp [pickAux, hd]]
      rw [show survivors (t :: r) = survivors r by simp [survivors, hd]]
      exact ih b
    · have hsurv : survivors (t :: r) = t :: survivors r := by simp [survivors, hd]
      by_cases hbt : b.length < t.length
      · rw [show pickAux (t :: r) b = pickAux r t by simp [pickAux, hd, hbt]]
        rw [ih t, hsurv, maxLenOf_cons]
        by_cases hmr : maxLenOf (survivors r) ≤ t.length
        · rw [if_pos hmr, if_neg (by omega)]
          rw [Nat.max_eq_left hmr]
          rw [List.find?_cons_of_pos _ (by simp)]
          rfl
        · rw [if_neg hmr, if_neg (by omega)]
          rw [Nat.max_eq_right (by omega)]
          rw [List.find?_cons_of_neg _ (by simp; omega)]
          have hsome := find?_maxLenOf_isSome (l := survivors r)
            (by intro hnil; rw [hnil] at hmr; exact hmr (Nat.zero_le _))
          obtain ⟨v, hv⟩ := Option.isSome_iff_exists.mp hsome
          rw [hv]
          rfl
      · rw [show pickAux (t :: r) b = pickAux r b by simp [pickAux, hd, hbt]]
        rw [ih b, hsurv, maxLenOf_cons]
        by_cases hmr : maxLenOf (survivors r) ≤ b.length
        · rw [if_pos hmr, if_pos (by omega)]
        · rw [if_neg hmr, if_neg (by omega)]
          rw [Nat.max_eq_right (by omega)]
          rw [List.find?_cons_of_neg _ (by simp; omega)]

/-- Claim C4: the selection step rejects every date-like candidate and returns
the longest survivor, ties to the first seen, empty when none survives — that
is, the first survivor whose length is the maximal survivor length, or `""`.
The picker is this loop over the collected candidates, and on three
non-date-like candidates of lengths 5, 40 and 12 the length-40 one is
chosen. -/
theorem c4_best_text_selection :
    (∀ cands : List String,
      pickLoop cands = ((survivors cands).find?
        (fun t => t.length == maxLenOf (survivors cands))).getD "")
    ∧ (∀ container : MarkupNode,
        _pick_best_review_text container = pickLoop (bestCandidates container))
    ∧ pickLoop ["great", "absolutely wonderful game with super art", "decent title"]
        = "absolutely wonderful game with super art" := by
  refine ⟨fun cands => ?_, fun _ => rfl, by decide⟩
  rw [pickLoop, pickAux_eq]
  by_cases hm : maxLenOf (survivors cands) ≤ String.length ""
  · rw [if_pos hm]
    cases hs : survivors cands with
    | nil => simp [hs]
    | cons a s2 =>
      rw [hs] at hm
      have hm0 : maxLenOf (a :: s2) = 0 := by simpa using hm
      have ha : a.length = 0 := by
        have := length_le_maxLenOf (l := a :: s2) (t := a) (by simp)
        omega
      have ha2 : a = "" := by
        cases a with
        | mk data =>
          cases data with
          | nil => rfl
          | cons x xs => simp [String.length] at ha
      rw [List.find?_cons_of_pos _ (by simp [ha, hm0])]
      simp [ha2]
  · rw [if_neg hm]

/-! ## Claim C6: the container locator -/

theorem locateAux_fst : ∀ (n : Nat) (cur : MarkupNode) (anc : List MarkupNode),
    (locateAux n cur anc).1 =
      ((anc.take n).find? qualifies).getD ((anc.take n).getLastD cur) := by
  intro n
  induction n with
  | zero => intro cur anc; simp [locateAux]
  | succ m ih =>
    intro cur anc
    cases anc with
    | nil => simp [locateAux]
    | cons p rest =>
      by_cases hq : qualifies p
      · rw [show locateAux (m + 1) cur (p :: rest) = (p, rest) by
          simp [locateAux, hq]]
        rw [List.take_succ_cons, List.find?_cons_of_pos _ hq]
        rfl
      · rw [show locateAux (m + 1) cur (p :: rest) = locateAux m p rest by
          simp [locateAux, hq]]
        rw [ih p rest]
        rw [List.take_succ_cons, List.find?_cons_of_neg _ hq, List.getLastD_cons]

/-- Claim C6: the container walk visits at most 14 ancestors, nearest first;
it returns the first (nearest) ancestor that is a `div` whose class string
contains `recommend` or `curator`, and when none of the first 14 ancestors
qualifies it returns the last ancestor reached (the anchor itself when there
is none); it is a total function, so it never fails. -/
theorem c6_container_locator :
    ∀ (link : MarkupNode) (anc : List MarkupNode),
      (locateContainer link anc).1 =
        ((anc.take 14).find? qualifies).getD ((anc.take 14).getLastD link) :=
  fun link anc => locateAux_fst 14 link anc

/-! ## Claim C2: the sentiment classifier -/

theorem classify_cases (v : String) :
    classify v = "not_recommended" ∨ classify v = "informational" ∨
      classify v = "recommended" := by
  unfold classify
  split
  · exact Or.inl rfl
  · split
    · exact Or.inr (Or.inl rfl)
    · exact Or.inr (Or.inr rfl)

theorem processLinks_type_cases (cid : Nat) :
    ∀ (links : List (MarkupNode × List MarkupNode)) (seen : List String)
      (r : ReviewRecord), r ∈ processLinks cid links seen →
      r.type = "not_recommended" ∨ r.type = "informational" ∨
        r.type = "recommended" := by
  intro links
  induction links with
  | nil => intro seen r h; simp [processLinks] at h
  | cons e rest ih =>
    intro seen r h
    rw [processLinks] at h
    cases hm : extract_appid (hrefOf e.1) with
    | none => rw [hm] at h; exact ih seen r h
    | some appid =>
      rw [hm] at h
      dsimp only at h
      by_cases hseen : appid ∈ seen
      · rw [if_pos hseen] at h; exact ih seen r h
      · rw [if_neg hseen] at h
        rcases List.mem_cons.mp h with h | h
        · subst h
          exact classify_cases _
        · exact ih _ r h

/-- A sample container whose ancestor chain carries both a `negative` and an
`informational` class. -/
def contBoth : MarkupNode := .elem "div" [] none [.text "x"]
def ancBoth : List MarkupNode :=
  [.elem "div" ["negative"] none [], .elem "div" ["informational"] none []]

/-- Claim C2: the sentiment decision over the accumulated class vocabulary is,
in order: `not_recommended` when the vocabulary carries `not_recommended` or
`negative`; otherwise `informational` when it carries `informational`;
otherwise `recommended` — so a chain carrying both `negative` and
`informational` classifies as `not_recommended`, and every extracted record's
sentiment is one of the three values. -/
theorem c2_sentiment_precedence :
    (∀ container : MarkupNode, ∀ anc : List MarkupNode,
      (containsStr (classVocab container anc) "not_recommended" = true ∨
          containsStr (classVocab container anc) "negative" = true →
        classify (classVocab container anc) = "not_recommended")
      ∧ (containsStr (classVocab container anc) "not_recommended" = false →
          containsStr (classVocab container anc) "negative" = false →
          containsStr (classVocab container anc) "informational" = true →
          classify (classVocab container anc) = "informational")
      ∧ (containsStr (classVocab container anc) "not_recommended" = false →
          containsStr (classVocab container anc) "negative" = false →
          containsStr (classVocab container anc) "informational" = false →
          classify (classVocab container anc) = "recommended"))
    ∧ classify (classVocab contBoth ancBoth) = "not_recommended"
    ∧ (∀ (cid : Nat) (root : MarkupNode) (r : ReviewRecord),
        r ∈ _parse_reviews_html cid root →
        r.type = "not_recommended" ∨ r.type = "informational" ∨
          r.type = "recommended") := by
  refine ⟨fun container anc => ⟨?_, ?_, ?_⟩, by decide,
    fun cid root r h => processLinks_type_cases cid _ _ r h⟩
  · intro h
    unfold classify
    rw [if_pos (by rcases h with h | h <;> simp [h])]
  · intro h1 h2 h3
    unfold classify
    rw [if_neg (by simp [h1, h2]), if_pos h3]
  · intro h1 h2 h3
    unfold classify
    rw [if_neg (by simp [h1, h2]), if_neg (by simp [h3])]

/-! ## Claim C1: one record per distinct id, first occurrence wins -/

/-- First-occurrence deduplication of a list of ids against a `seen` set. -/
def firstDedup : List String → List String → List String
  | [], _ => []
  | x :: r, seen =>
    if x ∈ seen then firstDedup r seen else x :: firstDedup r (x :: seen)

/-- The product ids of the selected anchors, in document order. -/
def linkIds (root : MarkupNode) : List String :=
  (appLinks root).filterMap (fun e => extract_appid (hrefOf e.1))

theorem mem_firstDedup : ∀ (l : List String) (seen : List String) (x : String),
    x ∈ firstDedup l seen ↔ x ∈ l ∧ x ∉ seen := by
  intro l
  induction l with
  | nil => intro seen x; simp [firstDedup]
  | cons a r ih =>
    intro seen x
    rw [firstDedup]
    by_cases ha : a ∈ seen
    · rw [if_pos ha, ih]
      constructor
      · rintro ⟨hx, hs⟩
        exact ⟨List.mem_cons_of_mem _ hx, hs⟩
      · rintro ⟨hx, hs⟩
        rcases List.mem_cons.mp hx with h | h
        · subst h; exact absurd ha hs
        · exact ⟨h, hs⟩
    · rw [if_neg ha]
      constructor
      · intro hx
        rcases List.mem_cons.mp hx with h | h
        · subst h; exact ⟨List.mem_cons_self _ _, ha⟩
        · obtain ⟨h1, h2⟩ := (ih _ _).mp h
          exact ⟨List.mem_cons_of_mem _ h1, fun hs => h2 (List.mem_cons_of_mem _ hs)⟩
      · rintro ⟨hx, hs⟩
        rcases List.mem_cons.mp hx with h | h
        · subst h; exact List.mem_cons_self _ _
        · by_cases hxa : x = a
          · subst hxa; exact List.mem_cons_self _ _
          · exact List.mem_cons_of_mem _
              ((ih _ _).mpr ⟨h, by simp [hxa, hs]⟩)

theorem nodup_firstDedup : ∀ (l : List String) (seen : List String),
    (firstDedup l seen).Nodup := by
  intro l
  induction l with
  | nil => intro seen; simp [firstDedup]
  | cons a r ih =>
    intro seen
    rw [firstDedup]
    by_cases ha : a ∈ seen
    · rw [if_pos ha]; exact ih seen
    · rw [if_neg ha]
      refine List.nodup_cons.mpr ⟨fun hmem => ?_, ih _⟩
      exact ((mem_firstDedup _ _ _).mp hmem).2 (List.mem_cons_self _ _)

theorem processLinks_map_appid (cid : Nat) :
    ∀ (links : List (MarkupNode × List MarkupNode)) (seen : List String),
      (processLinks cid links seen).map ReviewRecord.appid =
        firstDedup (links.filterMap (fun e => extract_appid (hrefOf e.1))) seen := by
  intro links
  induction links with
  | nil => intro seen; simp [processLinks, firstDedup]
  | cons e rest ih =>
    intro seen
    rw [processLinks]
    cases hm : extract_appid (hrefOf e.1) with
    | none =>
      dsimp only
      simp only [List.filterMap_cons, hm]
      exact ih seen
    | some appid =>
      dsimp only
      simp only [List.filterMap_cons, hm]
      rw [firstDedup]
      by_cases hseen : appid ∈ seen
      · rw [if_pos hseen, if_pos hseen]; exact ih seen
      · rw [if_neg hseen, if_neg hseen, List.map_cons, ih (appid :: seen)]
        rfl

theorem buildRecord_appid (cid : Nat) (link : MarkupNode) (anc : List MarkupNode)
    (appid href : String) : (buildRecord cid link anc appid href).appid = appid := rfl

theorem processLinks_find (cid : Nat) :
    ∀ (links : List (MarkupNode × List MarkupNode)) (seen : List String)
      (r : ReviewRecord), r ∈ processLinks cid links seen →
      r.appid ∉ seen ∧
        ∃ e, links.find? (fun en => extract_appid (hrefOf en.1) == some r.appid)
            = some e
          ∧ r = buildRecord cid e.1 e.2 r.appid (hrefOf e.1) := by
  intro links
  induction links with
  | nil => intro seen r h; simp [processLinks] at h
  | cons e rest ih =>
    intro seen r h
    rw [processLinks] at h
    cases hm : extract_appid (hrefOf e.1) with
    | none =>
      rw [hm] at h
      obtain ⟨hns, e2, hfind, hbuild⟩ := ih seen r h
      refine ⟨hns, e2, ?_, hbuild⟩
      rw [List.find?_cons_of_neg _ (by simp [hm]), hfind]
    | some appid =>
      rw [hm] at h
      dsimp only at h
      by_cases hseen : appid ∈ seen
      · rw [if_pos hseen] at h
        obtain ⟨hns, e2, hfind, hbuild⟩ := ih seen r h
        refine ⟨hns, e2, ?_, hbuild⟩
        have hne : appid ≠ r.appid := fun hh => hns (hh ▸ hseen)
        rw [List.find?_cons_of_neg _ (by simp [hm, hne]), hfind]
      · rw [if_neg hseen] at h
        rcases List.mem_cons.mp h with h | h
        · subst h
          refine ⟨hseen, e, ?_, rfl⟩
          rw [List.find?_cons_of_pos _ (by simp [hm, buildRecord_appid])]
        · obtain ⟨hns, e2, hfind, hbuild⟩ := ih _ r h
          have hnsseen : r.appid ∉ seen := fun hh => hns (List.mem_cons_of_mem _ hh)
          have hne : appid ≠ r.appid := fun hh => hns (hh ▸ List.mem_cons_self _ _)
          refine ⟨hnsseen, e2, ?_, hbuild⟩
          rw [List.find?_cons_of_neg _ (by simp [hm, hne]), hfind]

/-- Claim C1: extraction emits exactly one record per distinct product id of
the fragment's product anchors, in first-occurrence order (the record ids are
the first-occurrence deduplication of the anchor ids, hence without
duplicates and covering exactly the anchor ids), and each emitted record is
built from the FIRST anchor carrying its id. -/
theorem c1_record_dedup :
    ∀ (cid : Nat) (root : MarkupNode),
      ((_parse_reviews_html cid root).map ReviewRecord.appid
          = firstDedup (linkIds root) [])
      ∧ ((_parse_reviews_html cid root).map ReviewRecord.appid).Nodup
      ∧ (∀ a : String,
          a ∈ (_parse_reviews_html cid root).map ReviewRecord.appid ↔
            a ∈ linkIds root)
      ∧ (∀ r ∈ _parse_reviews_html cid root,
          ∃ e, (appLinks root).find?
              (fun en => extract_appid (hrefOf en.1) == some r.appid) = some e
            ∧ r = buildRecord cid e.1 e.2 r.appid (hrefOf e.1)) := by
  intro cid root
  have hmap := processLinks_map_appid cid (appLinks root) []
  refine ⟨hmap, ?_, ?_, ?_⟩
  · rw [show (_parse_reviews_html cid root).map ReviewRecord.appid
        = firstDedup (linkIds root) [] from hmap]
    exact nodup_firstDedup _ _
  · intro a
    rw [show (_parse_reviews_html cid root).map ReviewRecord.appid
        = firstDedup (linkIds root) [] from hmap]
    rw [mem_firstDedup]
    simp
  · intro r h
    exact (processLinks_find cid (appLinks root) [] r h).2

/-! ## Claim C3: sanitizer idempotence -/

theorem matchUrlAt_none (l : List Char)
    (h1 : "http://".toList.isPrefixOf l = false)
    (h2 : "https://".toList.isPrefixOf l = false) :
    matchUrlAt l = none := by
  unfold matchUrlAt
  rw [if_neg (fun hp => Bool.false_ne_true (h2 ▸ hp)),
    if_neg (fun hp => Bool.false_ne_true (h1 ▸ hp))]

theorem matchLinkAt_none (l : List Char)
    (h : "링크".toList.isPrefixOf l = false) :
    matchLinkAt l = none := by
  unfold matchLinkAt
  rw [if_neg (fun hp => Bool.false_ne_true (h ▸ hp))]

theorem stripUrlsAux_id : ∀ (n : Nat) (l : List Char),
    listContains "http://".toList l = false →
    listContains "https://".toList l = false →
    stripUrlsAux n l = (0, l) := by
  intro n
  induction n with
  | zero => intro l _ _; rfl
  | succ m ih =>
    intro l h1 h2
    cases l with
    | nil => rfl
    | cons c rest =>
      rw [listContains] at h1 h2
      obtain ⟨h1p, h1r⟩ := Bool.or_eq_false_iff.mp h1
      obtain ⟨h2p, h2r⟩ := Bool.or_eq_false_iff.mp h2
      rw [stripUrlsAux, matchUrlAt_none _ h1p h2p]
      dsimp only
      rw [ih rest h1r h2r]

theorem removeLinkAux_id : ∀ (n : Nat) (l : List Char),
    listContains "링크".toList l = false →
    removeLinkAux n l = l := by
  intro n
  induction n with
  | zero => intro l _; rfl
  | succ m ih =>
    intro l h
    cases l with
    | nil => rfl
    | cons c rest =>
      rw [listContains] at h
      obtain ⟨hp, hr⟩ := Bool.or_eq_false_iff.mp h
      rw [removeLinkAux, matchLinkAt_none _ hp]
      dsimp only
      rw [ih rest hr]

theorem collapseNl_id : ∀ l : List Char,
    listContains ['\n', '\n'] l = false → collapseNl l = l := by
  intro l
  induction l with
  | nil => intro _; rfl
  | cons c rest ih =>
    intro h
    cases rest with
    | nil => rfl
    | cons c2 r2 =>
      rw [listContains] at h
      obtain ⟨hp, hr⟩ := Bool.or_eq_false_iff.mp h
      rw [collapseNl]
      rw [if_neg (by
        simp only [List.isPrefixOf, Bool.and_eq_false_iff] at hp
        simp only [Bool.and_eq_true, beq_iff_eq]
        rintro ⟨hc, hc2⟩
        subst hc
        subst hc2
        simp at hp)]
      rw [ih hr]

theorem pyStripList_id (l : List Char)
    (h1 : ∀ c, l.head? = some c → pyWhite c = false)
    (h2 : ∀ c, l.getLast? = some c → pyWhite c = false) :
    pyStripList l = l := by
  unfold pyStripList
  rw [dropWhile_head_id l h1]
  rw [dropWhile_head_id l.reverse
    (fun c hc => h2 c (by rwa [List.head?_reverse] at hc))]
  exact List.reverse_reverse l

theorem stripTrailingJunk_id (l : List Char)
    (h : ∀ c, l.getLast? = some c → trailJunk c = false) :
    stripTrailingJunk l = l := by
  unfold stripTrailingJunk
  rw [dropWhile_head_id l.reverse
    (fun c hc => h c (by rwa [List.head?_reverse] at hc))]
  exact List.reverse_reverse l

/-- First character of the list is whitespace. -/
def headWhite (l : List Char) : Bool :=
  match l.head? with
  | some c => pyWhite c
  | none => false

/-- Last character of the list is whitespace. -/
def lastWhite (l : List Char) : Bool :=
  match l.getLast? with
  | some c => pyWhite c
  | none => false

/-- Last character of the list is in the trailing-strip class. -/
def lastJunk (l : List Char) : Bool :=
  match l.getLast? with
  | some c => trailJunk c
  | none => false

/-- Claim C3, counterexample: the sanitizer is not idempotent.  On
`x = "https:링크://a"` the marker pass deletes `링크:` and thereby glues the
rest into the URL `https://a`, so `sanitize(x) = ("https://a", false, 0)`
while re-sanitizing the clean text strips that URL:
`sanitize(sanitize(x).clean) = ("", true, 1) ≠ sanitize(x)`. -/
theorem c3_sanitize_idempotent_counterexample :
    (sanitize_review_text ((sanitize_review_text "https:링크://a").1)
        == sanitize_review_text "https:링크://a") = false
    ∧ sanitize_review_text "https:링크://a" = ("https://a", false, 0)
    ∧ sanitize_review_text "https://a" = ("", true, 1) :=
  ⟨by decide, by decide, by decide⟩

/-- Claim C3, amended: the sanitizer is idempotent only on fully-clean text.
If `c` contains no `http://` or `https://` substring, no `링크` marker, no
doubled newline, neither starts nor ends with whitespace and does not end
with `','`, `'\'` or `'s'`, then `sanitize(c) = (c, false, 0)` (unchanged,
`hadUrl = false`, `urlCount = 0`).  Unconditional idempotence fails, as the
counterexample shows. -/
theorem c3_sanitize_idempotent_amended (c : String)
    (h1 : containsStr c "http://" = false)
    (h2 : containsStr c "https://" = false)
    (h3 : containsStr c "링크" = false)
    (h4 : listContains ['\n', '\n'] c.toList = false)
    (h5 : headWhite c.toList = false)
    (h6 : lastWhite c.toList = false)
    (h7 : lastJunk c.toList = false) :
    sanitize_review_text c = (c, false, 0) := by
  by_cases hc : c = ""
  · subst hc; rfl
  · unfold sanitize_review_text
    rw [if_neg hc]
    dsimp only
    rw [stripUrlsAux_id _ _ h1 h2]
    dsimp only
    rw [removeLinkAux_id _ _ h3]
    rw [collapseNl_id _ h4]
    rw [pyStripList_id _
      (fun ch hch => by unfold headWhite at h5; rwa [hch] at h5)
      (fun ch hch => by unfold lastWhite at h6; rwa [hch] at h6)]
    rw [stripTrailingJunk_id _
      (fun ch hch => by unfold lastJunk at h7; rwa [hch] at h7)]
    rfl

/-- Witness for the amended C3 at a concrete clean input. -/
theorem c3_sanitize_idempotent_amended_witness :
    sanitize_review_text "Nice game!" = ("Nice game!", false, 0) :=
  c3_sanitize_idempotent_amended "Nice game!" (by decide) (by decide) (by decide)
    (by decide) (by decide) (by decide) (by decide)

/-! ## Claim C5: Phase A collects one candidate per pattern, not all matches -/

/-- Modelled from the claim's words, for the comparison only: Phase A as the
spec states it would collect the text of EVERY descendant matching each
pattern, in pattern order. -/
def specPhaseA (container : MarkupNode) : List String :=
  (selectors.map (fun pat =>
    ((descendants container).filter (classMatch pat)).map getTextN)).flatten

/-- A container with two `blurb`-classed descendants. -/
def tree5 : MarkupNode :=
  .elem "div" ["curator_block"] none [
    .elem "span" ["blurb"] none [.text "short one!"],
    .elem "span" ["blurb"] none [.text "a significantly longer review body!"]]

/-- Claim C5, counterexample: on a container with two descendants matching the
same pattern, the implementation collects only the first one's text (the code
uses `find`, not `find_all`), so the collected candidates differ from the
claim's all-matches collection, and the picker returns the first match's text
even though a longer match exists. -/
theorem c5_phase_a_counterexample :
    (phaseA tree5 == specPhaseA tree5) = false
    ∧ phaseA tree5 = ["short one!"]
    ∧ specPhaseA tree5 = ["short one!", "a significantly longer review body!"]
    ∧ _pick_best_review_text tree5 = "short one!" :=
  ⟨by decide, by decide, by decide, by decide⟩

theorem find?_eq_head?_filter {α : Type} (p : α → Bool) :
    ∀ l : List α, l.find? p = (l.filter p).head? := by
  intro l
  induction l with
  | nil => rfl
  | cons a r ih =>
    by_cases hp : p a
    · rw [List.find?_cons_of_pos _ hp, List.filter_cons_of_pos hp]
      rfl
    · rw [List.find?_cons_of_neg _ (by simp [hp]), List.filter_cons_of_neg (by simp [hp])]
      exact ih

/-- Claim C5, amended: in Phase A each pattern contributes at most ONE
candidate — the text of the first (in document order) matching descendant,
kept when nonempty — not the text of every match. -/
theorem c5_phase_a_amended :
    ∀ container : MarkupNode,
      phaseA container = selectors.filterMap (fun pat =>
        (((descendants container).filter (classMatch pat)).head?).bind (fun e =>
          let t := getTextN e
          if t == "" then none else some t)) := by
  intro container
  unfold phaseA
  refine congrArg (fun f => selectors.filterMap f) ?_
  funext pat
  rw [find?_eq_head?_filter]
  cases ((descendants container).filter (classMatch pat)).head? <;> rfl

/-! ## Claim C9: malformed anchors -/

/-- An anchor element whose link target does not contain `/app/<digits>`. -/
def isMalformedAnchor (n : MarkupNode) : Bool :=
  isAnchorTag n && !hrefOk (hrefOf n)

mutual
/-- Modelled from the claim's words, for the comparison only: remove every
malformed anchor (with its subtree) from the fragment. -/
def removeMalformed (n : MarkupNode) : MarkupNode :=
  match n with
  | .text s => .text s
  | .elem t c h cs => .elem t c h (removeMalformedList cs)
def removeMalformedList (ns : List MarkupNode) : List MarkupNode :=
  match ns with
  | [] => []
  | n :: rest =>
    if isMalformedAnchor n then removeMalformedList rest
    else removeMalformed n :: removeMalformedList rest
end

/-- A fragment whose malformed anchor's text is the first `blurb` match of the
well-formed anchor's container. -/
def tree9 : MarkupNode :=
  .elem "[document]" [] none [
    .elem "div" ["recommendation"] none [
      .elem "a" [] (some "/app/100") [],
      .elem "a" ["blurb"] (some "nope") [.text "malformed anchor long text!"],
      .elem "div" ["blurb"] none [.text "short txt"]]]

/-- Claim C9, counterexample: a malformed anchor produces no record, but its
content can still serve as a text candidate for another record, so extraction
over the fragment does NOT equal extraction over the fragment with malformed
anchors removed: in `tree9` the sole record's review text changes from the
malformed anchor's text to the other `blurb`'s text. -/
theorem c9_malformed_counterexample :
    _parse_reviews_html 1 tree9 ≠ _parse_reviews_html 1 (removeMalformed tree9)
    ∧ (_parse_reviews_html 1 tree9).map ReviewRecord.review
        = ["malformed anchor long text!"]
    ∧ (_parse_reviews_html 1 (removeMalformed tree9)).map ReviewRecord.review
        = ["short txt"] := by
  refine ⟨fun h => ?_, by decide, by decide⟩
  have h2 := congrArg (List.map ReviewRecord.review) h
  rw [show (_parse_reviews_html 1 tree9).map ReviewRecord.review
      = ["malformed anchor long text!"] by decide] at h2
  rw [show (_parse_reviews_html 1 (removeMalformed tree9)).map ReviewRecord.review
      = ["short txt"] by decide] at h2
  simp at h2

theorem isProductAnchor_eq (n : MarkupNode) :
    isProductAnchor n = (isAnchorTag n && hrefOk (hrefOf n)) := by
  cases n with
  | text s => rfl
  | elem t cls h cs =>
    cases h with
    | none => simp [isProductAnchor, isAnchorTag, hrefOf, hrefOk, findAppId]
    | some href => rfl

/-- Claim C9, amended: an anchor without a well-formed `/app/<digits>` link
target is silently skipped and produces no record — the processed anchor list
is exactly the list of all anchors with the malformed ones filtered out, and
extraction is a total function over that filtered list.  (Removing the
malformed anchors from the fragment itself, however, can change other
records' text candidates, as the counterexample shows.) -/
theorem c9_malformed_amended :
    ∀ (cid : Nat) (root : MarkupNode),
      appLinks root = ((entriesList (childrenOf root) [root]).filter
          (fun e => isAnchorTag e.1)).filter (fun e => hrefOk (hrefOf e.1))
      ∧ _parse_reviews_html cid root = processLinks cid (appLinks root) [] := by
  intro cid root
  refine ⟨?_, rfl⟩
  rw [List.filter_filter]
  unfold appLinks
  refine congrArg (fun f => List.filter f (entriesList (childrenOf root) [root])) ?_
  funext e
  rw [isProductAnchor_eq, Bool.and_comm]
